import Mathlib

/-!
Verification of the Taproot descriptor subsystem (src/descriptor/tr.rs) of a
Bitcoin output-descriptor library, via a shallow embedding in Lean 4.

Leaf script-expressions (Miniscript values) are external to this component;
they are modelled by the data this component reads from them: encoded script
size, the declared maximum-satisfaction element count and byte size, the
top-level structural base type, and an identity used for equality/ordering.
Keys are an arbitrary type Pk, as in the source (generic over MiniscriptKey).
-/

namespace MiniTr

/-- Model of an external miniscript leaf (crate::miniscript::Miniscript), by
the quantities this component reads from it: encode().len(), the two
max-satisfaction estimates (fallible in the source, hence Option), whether
its top-level type base is B (read by the tr parser), and an opaque identity
standing for the rest of the expression. -/
structure Miniscript where
  scriptSize : Nat
  maxSatElems : Option Nat
  maxSatSize : Option Nat
  baseB : Bool
  msid : Nat
deriving DecidableEq

/-- TapTree from tr.rs: a branch with cached height, or a leaf. The height
field mirrors the source field (an arbitrary stored value; combine fills it
consistently). -/
inductive TapTree where
  | tree (left : TapTree) (right : TapTree) (height : Nat)
  | leaf (ms : Miniscript)
deriving DecidableEq

/-- TapTree::height: reads the cached height of a branch, 0 for a leaf. -/
def TapTree.height : TapTree → Nat
  | .tree _ _ h => h
  | .leaf _ => 0

/-- TapTree::combine: builds a branch whose cached height is
1 + max(left.height(), right.height()). -/
def TapTree.combine (left right : TapTree) : TapTree :=
  .tree left right (1 + max left.height right.height)

/-- The structural height of a tree (number of branch levels), independent of
the cached height fields. Coincides with TapTree.height on trees whose caches
are consistent. -/
def TapTree.trueHeight : TapTree → Nat
  | .tree l r _ => 1 + max l.trueHeight r.trueHeight
  | .leaf _ => 0

/-- Checks that every cached height field equals 1 + max of the children's
cached heights, i.e. that the tree could have been built by combine. -/
def TapTree.heightsOkB : TapTree → Bool
  | .tree l r h => (h == 1 + max l.height r.height) && l.heightsOkB && r.heightsOkB
  | .leaf _ => true

/-- Number of nodes of a tree; termination measure for the iterator. -/
def TapTree.nodeCount : TapTree → Nat
  | .tree l r _ => 1 + l.nodeCount + r.nodeCount
  | .leaf _ => 1

/-- Termination measure for the explicit-stack traversal. -/
def stackCount (s : List (Nat × TapTree)) : Nat :=
  (s.map (fun x => x.2.nodeCount)).sum

/-- The explicit-stack traversal of TapTreeIter::next, run to completion.
The source stack holds (u8, &TapTree) pairs and pushes depth + 1 for both
children (right below left, so the left child is popped first); the u8
depth is modelled as a Nat reduced mod 256 at each increment, matching
release-mode wrap-around of the u8 addition. -/
def iterItems : List (Nat × TapTree) → List (Nat × Miniscript)
  | [] => []
  | (d, .tree l r _) :: rest =>
      iterItems (((d + 1) % 256, l) :: ((d + 1) % 256, r) :: rest)
  | (d, .leaf ms) :: rest => (d, ms) :: iterItems rest
termination_by s => stackCount s
decreasing_by
  all_goals simp [stackCount, TapTree.nodeCount]
  all_goals omega

/-- TapTree::iter: the DFS (depth, leaf) sequence, starting from depth 0. -/
def TapTree.iter (t : TapTree) : List (Nat × Miniscript) :=
  iterItems [(0, t)]

/-- Specification-side description of the traversal, written from the claim:
exactly one (depth, leaf) pair per leaf, in pre-order with the left child's
leaves before the right child's, each leaf's depth being its number of
branch ancestors (the accumulator d counts the ancestors so far). -/
def leavesSpec : TapTree → Nat → List (Nat × Miniscript)
  | .leaf ms, d => [(d, ms)]
  | .tree l r _, d => leavesSpec l (d + 1) ++ leavesSpec r (d + 1)

/-- Errors surfaced by this component (crate::Error restricted to the kinds
this file needs). -/
inductive Err where
  | maxRecursiveDepthExceeded
  | impossibleSatisfaction
  | nonTopLevel
  | invalidKey
  | assertFailed
deriving DecidableEq

/-- The taproot descriptor: internal key, optional script tree, and the
spend-info cache slot (Mutex<Option<Arc<TaprootSpendInfo>>> in the source,
modelled as an optional opaque value; the cached data itself is derived
cryptographic state and is never read by the operations verified here). -/
structure Tr (Pk : Type) where
  internal_key : Pk
  tree : Option TapTree
  spend_info : Option Nat
deriving DecidableEq

/-- Tr::new. Tap::check_pk is external (crate::miniscript::context);
modelled from the spec: the internal key must be a structurally valid key,
checked first; then the stored tree height is compared against
TAPROOT_CONTROL_MAX_NODE_COUNT = 128. -/
def Tr.new {Pk : Type} (checkPk : Pk → Bool) (internal_key : Pk)
    (tree : Option TapTree) : Except Err (Tr Pk) :=
  if checkPk internal_key then
    if (tree.map TapTree.height).getD 0 ≤ 128 then
      .ok ⟨internal_key, tree, none⟩
    else
      .error .maxRecursiveDepthExceeded
  else
    .error .invalidKey

/-- Tr::iter_scripts: DFS over the tree if present, empty otherwise. -/
def Tr.iter_scripts {Pk : Type} (d : Tr Pk) : List (Nat × Miniscript) :=
  match d.tree with
  | some t => t.iter
  | none => []

/-- Modelled from the spec: crate::util::varint_len (not under src/), the
byte length of the Bitcoin variable-length integer encoding of n. -/
def varint_len (n : Nat) : Nat :=
  if n < 253 then 1
  else if n < 65536 then 3
  else if n < 4294967296 then 5
  else 9

/-- control_block_len from tr.rs: TAPROOT_CONTROL_BASE_SIZE (33) plus
depth * TAPROOT_CONTROL_NODE_SIZE (32). -/
def control_block_len (depth : Nat) : Nat :=
  33 + depth * 32

/-- Witness-stack placeholder (crate::miniscript::satisfy::Placeholder),
modelled by what determines its serialized size: a key-spend signature
placeholder (key, presence of a merkle root, size), the leaf script, the
control block (by its byte length), or an opaque satisfaction-template
element of a given size produced by the external script component. -/
inductive Placeholder (Pk : Type) where
  | schnorrSigPk (pk : Pk) (merkleRootSome : Bool) (size : Nat)
  | tapScript (ms : Miniscript)
  | tapControlBlock (len : Nat)
  | item (size : Nat)
deriving DecidableEq

/-- Serialized size of one placeholder item. -/
def Placeholder.size {Pk : Type} : Placeholder Pk → Nat
  | .schnorrSigPk _ _ s => s
  | .tapScript ms => ms.scriptSize
  | .tapControlBlock l => l
  | .item s => s

/-- Witness from satisfy.rs: a concrete stack plan, or the markers for
unavailable / impossible satisfaction. -/
inductive Witness (Pk : Type) where
  | stack (w : List (Placeholder Pk))
  | unavailable
  | impossible
deriving DecidableEq

/-- Satisfaction from satisfy.rs: the planned witness stack plus the
has_sig and timelock markers. -/
structure Satisfaction (Pk : Type) where
  stack : Witness Pk
  has_sig : Bool
  relative_timelock : Option Nat
  absolute_timelock : Option Nat
deriving DecidableEq

/-- Modelled from the spec: crate::util::witness_size (not under src/): the
full serialized witness size, i.e. the stack-item-count varint plus, for
each item, its length varint plus its bytes. -/
def witness_size {Pk : Type} (w : List (Placeholder Pk)) : Nat :=
  varint_len w.length + (w.map (fun x => varint_len x.size + x.size)).sum

/-- The capability oracle (Satisfier / AssetProvider) together with the two
satisfaction-template builders of the external script component. Modelled
from the spec: provider_lookup_tap_key_spend_sig answers whether a key-path
signature of some size is available; build_template is the non-malleable
(canonical minimal witness) builder and build_template_mall the malleable
(any valid witness) builder, both external to src/. -/
structure AssetProvider (Pk : Type) where
  tapKeySpendSig : Pk → Option Nat
  buildTemplate : Miniscript → Satisfaction Pk
  buildTemplateMall : Miniscript → Satisfaction Pk

/-- The empty, unavailable satisfaction that the script-path search starts
from in best_tap_spend. -/
def unavailSat (Pk : Type) : Satisfaction Pk :=
  { stack := .unavailable, has_sig := false,
    relative_timelock := none, absolute_timelock := none }

/-- One iteration of the script-path loop of best_tap_spend: build the
template with the builder selected by allow_mall (the source selects
build_template when allow_mall is true and build_template_mall when it is
false), skip the leaf if it yields no concrete stack, append the leaf
script and the control block (whose length is control_block_len at the
iteration depth, as recorded in the spend-info leaf map), then keep the
previous best only when the new serialized size is strictly larger. -/
def tapLoopStep {Pk : Type} (p : AssetProvider Pk) (allow_mall : Bool)
    (acc : Satisfaction Pk × Option Nat) (x : Nat × Miniscript) :
    Satisfaction Pk × Option Nat :=
  let sat0 := if allow_mall then p.buildTemplate x.2 else p.buildTemplateMall x.2
  match sat0.stack with
  | .stack wit0 =>
      let wit := wit0 ++ [.tapScript x.2, .tapControlBlock (control_block_len x.1)]
      let sat : Satisfaction Pk := { sat0 with stack := .stack wit }
      let wit_size := witness_size wit
      match acc.2 with
      | some m => if m < wit_size then acc else (sat, some wit_size)
      | none => (sat, some wit_size)
  | _ => acc

/-- best_tap_spend from tr.rs: if the oracle offers a key-path signature,
return the one-item key-spend stack (the merkle root recorded in the
placeholder is present exactly when the descriptor has a tree); otherwise
run the script-path search over the DFS leaf sequence. -/
def best_tap_spend {Pk : Type} (d : Tr Pk) (p : AssetProvider Pk)
    (allow_mall : Bool) : Satisfaction Pk :=
  match p.tapKeySpendSig d.internal_key with
  | some size =>
      { stack := .stack [.schnorrSigPk d.internal_key d.tree.isSome size],
        has_sig := true, relative_timelock := none, absolute_timelock := none }
  | none =>
      (d.iter_scripts.foldl (tapLoopStep p allow_mall) (unavailSat Pk, none)).1

/-- Tr::plan_satisfaction: non-malleable planning entry point
(allow_mall = false). -/
def Tr.plan_satisfaction {Pk : Type} (d : Tr Pk) (p : AssetProvider Pk) :
    Satisfaction Pk :=
  best_tap_spend d p false

/-- Tr::plan_satisfaction_mall: malleable planning entry point
(allow_mall = true). -/
def Tr.plan_satisfaction_mall {Pk : Type} (d : Tr Pk) (p : AssetProvider Pk) :
    Satisfaction Pk :=
  best_tap_spend d p true

/-- The per-leaf term of Tr::max_weight_to_satisfy, None when either
max-satisfaction estimate of the leaf is unavailable. -/
def leafEstTerm (depth : Nat) (ms : Miniscript) : Option Nat :=
  match ms.maxSatElems, ms.maxSatSize with
  | some max_sat_elems, some max_sat_size =>
      some ((varint_len (max_sat_elems + 1) - varint_len 0) +
        max_sat_size +
        varint_len ms.scriptSize + ms.scriptSize +
        varint_len (control_block_len depth) + control_block_len depth)
  | _, _ => none

/-- Tr::max_weight_to_satisfy: the key-path fixed bound when there is no
tree, otherwise the maximum of the per-leaf terms over the DFS leaves,
failing with ImpossibleSatisfaction when no leaf yields a term. -/
def Tr.max_weight_to_satisfy {Pk : Type} (d : Tr Pk) : Except Err Nat :=
  match d.tree with
  | none => .ok ((varint_len 1 - varint_len 0) + (1 + 65))
  | some t =>
      match ((t.iter).filterMap (fun x => leafEstTerm x.1 x.2)).max? with
      | some wu => .ok wu
      | none => .error .impossibleSatisfaction

/-- The completed candidate (satisfaction and serialized size) that one DFS
leaf contributes to the script-path search, None when the selected builder
yields no concrete stack. tapLoopStep processes exactly these candidates. -/
def candOf {Pk : Type} (p : AssetProvider Pk) (allow_mall : Bool)
    (x : Nat × Miniscript) : Option (Satisfaction Pk × Nat) :=
  let sat0 := if allow_mall then p.buildTemplate x.2 else p.buildTemplateMall x.2
  match sat0.stack with
  | .stack wit0 =>
      let wit := wit0 ++ [.tapScript x.2, .tapControlBlock (control_block_len x.1)]
      some ({ sat0 with stack := .stack wit }, witness_size wit)
  | _ => none

/-- The selection step of the loop, restricted to concrete candidates:
keep the accumulator only when its recorded size is strictly smaller. -/
def stepSel {Pk : Type} (acc : Satisfaction Pk × Option Nat)
    (c : Satisfaction Pk × Nat) : Satisfaction Pk × Option Nat :=
  match acc.2 with
  | some m => if m < c.2 then acc else (c.1, some c.2)
  | none => (c.1, some c.2)

/-- Left-accumulating minimum over candidates, keeping the current best only
when it is strictly smaller (so the later of two equals wins), exactly as
the loop does. -/
def pickMin {Pk : Type} (c : Satisfaction Pk × Nat) :
    List (Satisfaction Pk × Nat) → Satisfaction Pk × Nat
  | [] => c
  | x :: rest => pickMin (if c.2 < x.2 then c else x) rest

/-- Specification-side selection: the LAST candidate, in list order, whose
size attains the minimum — an earlier candidate is preferred over a later
one only when its size is strictly smaller. -/
def lastArgmin {Pk : Type} : List (Satisfaction Pk × Nat) →
    Option (Satisfaction Pk × Nat)
  | [] => none
  | x :: rest =>
      match lastArgmin rest with
      | none => some x
      | some y => if x.2 < y.2 then some x else some y

/-- Sum of the length-prefixed serialized sizes of a list of witness items
(witness_size without the stack-count varint). -/
def sumWeights {Pk : Type} (w : List (Placeholder Pk)) : Nat :=
  (w.map (fun x => varint_len x.size + x.size)).sum

/-- Specification-side per-leaf weight term, written from the claim: the
stack-count varint delta, plus the maximum satisfaction bytes, plus the
length-prefixed encoded script, plus the length-prefixed control block
whose length is exactly 33 + 32 * depth. -/
def specLeafWeight (depth : Nat) (ms : Miniscript) : Option Nat :=
  match ms.maxSatElems, ms.maxSatSize with
  | some max_sat_elems, some max_sat_size =>
      some ((varint_len (max_sat_elems + 1) - varint_len 0) +
        max_sat_size +
        (varint_len ms.scriptSize + ms.scriptSize) +
        (varint_len (33 + 32 * depth) + (33 + 32 * depth)))
  | _, _ => none

/-! ### Parser model (FromTree / Display round trip)

The text-to-expression tokenizer (crate::expression) and the per-leaf
Miniscript text round trip are external to src/. Modelled from the spec:
the grammar is tr(KEY) | tr(KEY,TREE), TREE := SCRIPT | {TREE,TREE}, and
tokenizing the canonical rendering of a descriptor yields the expression
tree with one curly-brace node (empty name, exactly two children) per tree
branch and one already-parsed script node per leaf. -/

/-- The tap-tree part of the tokenized expression of a descriptor. -/
inductive TExpr where
  | brace (l r : TExpr)
  | leafE (ms : Miniscript)
deriving DecidableEq

/-- The tokenized expression of a whole tr(...) descriptor. -/
inductive CExpr (Pk : Type) where
  | trKey (k : Pk)
  | trKeyTree (k : Pk) (te : TExpr)
deriving DecidableEq

/-- Canonical expression of a tap tree, mirroring Display for TapTree:
a branch prints as curly braces around its two children, a leaf prints its
script. -/
def canonExprT : TapTree → TExpr
  | .tree l r _ => .brace (canonExprT l) (canonExprT r)
  | .leaf ms => .leafE ms

/-- Canonical expression of a descriptor, mirroring Display for Tr:
tr(key) or tr(key,tree). -/
def Tr.canonExpr {Pk : Type} (d : Tr Pk) : CExpr Pk :=
  match d.tree with
  | none => .trKey d.internal_key
  | some t => .trKeyTree d.internal_key (canonExprT t)

/-- Rendering tokens for the canonical text form (checksum suffix omitted,
as in the alternate rendering mode; the external checksum layer appends and
strips it and is not modelled further). -/
inductive Tok (Pk : Type) where
  | trOpen
  | close
  | comma
  | lb
  | rb
  | scriptTok (ms : Miniscript)
  | keyTok (k : Pk)
deriving DecidableEq

/-- Token stream written by Display for TapTree. -/
def renderTreeToks {Pk : Type} : TapTree → List (Tok Pk)
  | .tree l r _ => .lb :: (renderTreeToks l ++ .comma :: renderTreeToks r ++ [.rb])
  | .leaf ms => [.scriptTok ms]

/-- Token stream written by Display for Tr. -/
def Tr.renderToks {Pk : Type} (d : Tr Pk) : List (Tok Pk) :=
  match d.tree with
  | none => [.trOpen, .keyTok d.internal_key, .close]
  | some t => .trOpen :: .keyTok d.internal_key :: .comma :: renderTreeToks t ++ [.close]

/-- Token stream of a tap-tree expression node (what the tokenizer read). -/
def exprToks {Pk : Type} : TExpr → List (Tok Pk)
  | .brace l r => .lb :: (exprToks l ++ .comma :: exprToks r ++ [.rb])
  | .leafE ms => [.scriptTok ms]

/-- Token stream of a whole descriptor expression. -/
def CExpr.toks {Pk : Type} : CExpr Pk → List (Tok Pk)
  | .trKey k => [.trOpen, .keyTok k, .close]
  | .trKeyTree k te => .trOpen :: .keyTok k :: .comma :: exprToks te ++ [.close]

/-- The tree denoted by a tap-tree expression: braces combine, scripts are
leaves. -/
def treeOf : TExpr → TapTree
  | .brace l r => TapTree.combine (treeOf l) (treeOf r)
  | .leafE ms => .leaf ms

/-- Parent tag of the expression node at path p inside the tap-tree
expression (paths are lists of child directions from the tap-tree root;
none denotes the enclosing tr() node, the parent of the tap-tree root). -/
def pathParent (p : List Bool) : Option (List Bool) :=
  if p = [] then none else some p.dropLast

/-- Parent of a tag, i.e. the parent of the node the tag denotes
(TreeIterItem::parent in the source; for the tr() node itself this is never
asked, and the model returns none there). -/
def tagParent : Option (List Bool) → Option (List Bool)
  | none => none
  | some p => pathParent p

/-- TreeStack::push from the FromTree impl: while the top of the reduction
stack records the same parent node, pop it, combine the two sibling trees
into a branch, re-tag the result with the grandparent, and continue. -/
def pushS (p : Option (List Bool)) (x : TapTree) :
    List (Option (List Bool) × TapTree) → List (Option (List Bool) × TapTree)
  | [] => [(p, x)]
  | (q, t) :: rest =>
      if q = p then pushS (tagParent p) (TapTree.combine t x) rest
      else (p, x) :: (q, t) :: rest

/-- The pre-order walk of the FromTree impl over the tap-tree expression:
a curly-brace node passes its structural checks (its name is empty and it
has exactly two children, both by construction here) and contributes
nothing directly; a script node is parsed as a leaf, rejected when its
top-level type base is not B, and otherwise pushed tagged with its parent,
its descendants being skipped. -/
def walk : TExpr → List Bool → List (Option (List Bool) × TapTree) →
    Except Err (List (Option (List Bool) × TapTree))
  | .brace l r, p, s =>
      match walk l (p ++ [false]) s with
      | .ok s1 => walk r (p ++ [true]) s1
      | .error e => .error e
  | .leafE ms, p, s =>
      if ms.baseB then .ok (pushS (pathParent p) (.leaf ms) s)
      else .error .nonTopLevel

/-- FromTree for Tr, on the modelled expression: read the key, walk the
tap-tree expression if present, require the reduction stack to hold exactly
one entry (the assert_eq of pop_final; its violation is modelled as an
error value), and construct via Tr::new. -/
def fromTreeModel {Pk : Type} (checkPk : Pk → Bool) :
    CExpr Pk → Except Err (Tr Pk)
  | .trKey k => Tr.new checkPk k none
  | .trKeyTree k te =>
      match walk te [] [] with
      | .ok [(_, t)] => Tr.new checkPk k (some t)
      | .ok _ => .error .assertFailed
      | .error e => .error e

/-- All leaves of a tree have top-level type base B. -/
def TapTree.leavesB : TapTree → Bool
  | .tree l r _ => l.leavesB && r.leavesB
  | .leaf ms => ms.baseB

/-! ### Equality, ordering and hashing (C10) -/

/-- Total order on Nat written as Rust's usize Ord behaves. -/
def natCmp (a b : Nat) : Ordering :=
  if a < b then .lt else if a = b then .eq else .gt

/-- Model of the external total order on miniscript leaves (Miniscript
derives Ord in the source); any total order works for the claims here. -/
def Miniscript.cmpM (a b : Miniscript) : Ordering :=
  (natCmp a.scriptSize b.scriptSize).then ((natCmp a.msid b.msid).then
    ((natCmp (cond a.baseB 1 0) (cond b.baseB 1 0)).then .eq))

/-- Derived Ord for TapTree: the branch variant precedes the leaf variant,
branches compare lexicographically on (left, right, height). -/
def TapTree.cmp : TapTree → TapTree → Ordering
  | .tree l1 r1 h1, .tree l2 r2 h2 =>
      (l1.cmp l2).then ((r1.cmp r2).then (natCmp h1 h2))
  | .tree _ _ _, .leaf _ => .lt
  | .leaf _, .tree _ _ _ => .gt
  | .leaf a, .leaf b => a.cmpM b

/-- Ord for Option (None sorts before Some), as derived in Rust. -/
def optCmp {α : Type} (c : α → α → Ordering) : Option α → Option α → Ordering
  | none, none => .eq
  | none, some _ => .lt
  | some _, none => .gt
  | some a, some b => c a b

/-- PartialEq for Tr: equality of internal key and tree only; the
spend-info cache slot is not compared. -/
def Tr.eqb {Pk : Type} [DecidableEq Pk] (a b : Tr Pk) : Bool :=
  decide (a.internal_key = b.internal_key) && decide (a.tree = b.tree)

/-- Ord for Tr: compare the internal keys, and on Equal fall through to the
trees; the spend-info cache slot is not consulted. -/
def Tr.cmpT {Pk : Type} (cmpPk : Pk → Pk → Ordering) (a b : Tr Pk) : Ordering :=
  match cmpPk a.internal_key b.internal_key with
  | .eq => optCmp TapTree.cmp a.tree b.tree
  | ord => ord

/-- Hash for Miniscript, modelled as the token stream an external hasher
would be fed. -/
def Miniscript.hashToks (ms : Miniscript) : List Nat :=
  [ms.scriptSize, ms.msid, cond ms.baseB 1 0]

/-- Derived Hash for TapTree: variant discriminant, then the fields. -/
def TapTree.hashToks : TapTree → List Nat
  | .tree l r h => 0 :: (l.hashToks ++ r.hashToks ++ [h])
  | .leaf ms => 1 :: ms.hashToks

/-- Derived Hash for Option TapTree. -/
def optTreeHashToks : Option TapTree → List Nat
  | none => [0]
  | some t => 1 :: t.hashToks

/-- Hash for Tr: feeds the internal key, then the tree; the spend-info
cache slot is not hashed. -/
def Tr.hashT {Pk : Type} (hPk : Pk → List Nat) (a : Tr Pk) : List Nat :=
  hPk a.internal_key ++ optTreeHashToks a.tree

/-! ### Concrete objects used by counterexamples and witnesses -/

/-- A leaf with top-level base type B, 5-byte script, small maxima. -/
def msA : Miniscript := ⟨5, some 2, some 10, true, 1⟩

/-- A second such leaf, distinct from msA. -/
def msB : Miniscript := ⟨5, some 2, some 10, true, 2⟩

/-- A third leaf. -/
def msC : Miniscript := ⟨7, some 3, some 20, true, 3⟩

/-- The tree {{A,B},C} of the specification example. -/
def tABC : TapTree :=
  TapTree.combine (TapTree.combine (.leaf msA) (.leaf msB)) (.leaf msC)

/-- A left chain of height n built with combine (its cached heights are
consistent by construction). -/
def chainT : Nat → TapTree
  | 0 => .leaf msA
  | n + 1 => TapTree.combine (chainT n) (.leaf msB)

/-- Descriptor with the example tree {{A,B},C}. -/
def dABC : Tr Nat := ⟨0, some tABC, none⟩

/-- Descriptor with two leaves of equal realized witness size. -/
def dTie : Tr Nat := ⟨0, some (TapTree.combine (.leaf msA) (.leaf msB)), none⟩

/-- Oracle with no key-path signature and empty templates for every leaf
(so both leaves of dTie realize witnesses of equal serialized size). -/
def pTie : AssetProvider Nat :=
  { tapKeySpendSig := fun _ => none,
    buildTemplate := fun _ => ⟨.stack [], true, none, none⟩,
    buildTemplateMall := fun _ => ⟨.stack [], true, none, none⟩ }

/-- Descriptor with no script tree. -/
def dKey : Tr Nat := ⟨0, none, none⟩

/-- Oracle offering a 65-byte key-path signature and no script templates. -/
def pKey : AssetProvider Nat :=
  { tapKeySpendSig := fun _ => some 65,
    buildTemplate := fun _ => ⟨.unavailable, false, none, none⟩,
    buildTemplateMall := fun _ => ⟨.unavailable, false, none, none⟩ }

/-- Single leaf used by the C4 witness. -/
def ms4 : Miniscript := ⟨5, some 2, some 10, true, 4⟩

/-- Single-leaf descriptor used by the C4 witness. -/
def dC4 : Tr Nat := ⟨0, some (.leaf ms4), none⟩

/-- Oracle whose templates respect the declared leaf maxima. -/
def pC4 : AssetProvider Nat :=
  { tapKeySpendSig := fun _ => none,
    buildTemplate := fun _ => ⟨.stack [.item 3], false, none, none⟩,
    buildTemplateMall := fun _ => ⟨.stack [.item 3], false, none, none⟩ }

/-- Leaf used by the C2 builder-swap evaluation. -/
def msE : Miniscript := ⟨5, some 2, some 10, true, 9⟩

/-- Single-leaf descriptor used by the C2 evaluation. -/
def dE : Tr Nat := ⟨0, some (.leaf msE), none⟩

/-- Oracle whose non-malleable and malleable builders return visibly
different templates, so the two planning modes can be told apart. -/
def pE : AssetProvider Nat :=
  { tapKeySpendSig := fun _ => none,
    buildTemplate := fun _ => ⟨.stack [.item 1], true, none, none⟩,
    buildTemplateMall := fun _ => ⟨.stack [.item 2], false, some 5, none⟩ }

/-- A leaf whose top-level type base is not B (such as a v-wrapped script);
constructible programmatically, since neither TapTree nor Tr::new inspects
leaf types. -/
def msV : Miniscript := ⟨5, some 2, some 10, false, 7⟩

/-- Validly constructed descriptor holding the non-B leaf. -/
def dV : Tr Nat := ⟨0, some (.leaf msV), none⟩

/-- The trivial key check used by the concrete examples. -/
def ckOk : Nat → Bool := fun _ => true

/-! ## Helper lemmas -/

theorem varint_len_zero : varint_len 0 = 1 := rfl

theorem varint_len_pos (n : Nat) : 1 ≤ varint_len n := by
  unfold varint_len; split_ifs <;> omega

theorem varint_len_mono {a b : Nat} (h : a ≤ b) : varint_len a ≤ varint_len b := by
  unfold varint_len; split_ifs <;> omega

theorem chainT_height (n : Nat) : (chainT n).height = n := by
  induction n with
  | zero => rfl
  | succ n ih =>
      have h : (chainT (n + 1)).height = 1 + max (chainT n).height 0 := rfl
      rw [h, ih]
      omega

theorem iterItems_nil : iterItems [] = [] := by
  simp [iterItems]

theorem iterItems_tree (d : Nat) (l r : TapTree) (h : Nat)
    (rest : List (Nat × TapTree)) :
    iterItems ((d, .tree l r h) :: rest)
      = iterItems (((d + 1) % 256, l) :: ((d + 1) % 256, r) :: rest) := by
  simp [iterItems]

theorem iterItems_leaf (d : Nat) (ms : Miniscript) (rest : List (Nat × TapTree)) :
    iterItems ((d, .leaf ms) :: rest) = (d, ms) :: iterItems rest := by
  simp [iterItems]

theorem dTie_iter : dTie.iter_scripts = [(1, msA), (1, msB)] := by
  simp [dTie, Tr.iter_scripts, TapTree.iter, TapTree.combine,
    iterItems_tree, iterItems_leaf, iterItems_nil]

theorem dE_iter : dE.iter_scripts = [(0, msE)] := by
  simp [dE, Tr.iter_scripts, TapTree.iter, iterItems_leaf, iterItems_nil]

theorem tABC_iter : tABC.iter = [(2, msA), (2, msB), (1, msC)] := by
  simp [tABC, TapTree.iter, TapTree.combine,
    iterItems_tree, iterItems_leaf, iterItems_nil]

/-! ## C8: combine and height -/

/-- C8: for every pair of trees, the height of combine(L, R) is
1 + max(height(L), height(R)), and the height of a leaf is 0. -/
theorem claim_C8 :
    (∀ l r : TapTree, (TapTree.combine l r).height = 1 + max l.height r.height)
    ∧ (∀ ms : Miniscript, (TapTree.leaf ms).height = 0) :=
  ⟨fun _ _ => rfl, fun _ => rfl⟩

/-! ## C3: key-path spend always wins -/

/-- C3: whenever the oracle can produce a key-path signature for the
internal key, the planner returns the one-item key-spend stack with
has_sig = true and no timelocks, for every tree and every template builder
(the script-path search is never consulted). -/
theorem claim_C3 {Pk : Type} (d : Tr Pk) (p : AssetProvider Pk)
    (allow_mall : Bool) (size : Nat)
    (h : p.tapKeySpendSig d.internal_key = some size) :
    best_tap_spend d p allow_mall =
      { stack := .stack [.schnorrSigPk d.internal_key d.tree.isSome size],
        has_sig := true, relative_timelock := none, absolute_timelock := none } := by
  unfold best_tap_spend
  rw [h]

/-- C3 witness: the key-path-capable oracle on the tree-less descriptor. -/
theorem claim_C3_witness :
    best_tap_spend dKey pKey true =
      { stack := .stack [.schnorrSigPk (0 : Nat) false 65],
        has_sig := true, relative_timelock := none, absolute_timelock := none } :=
  claim_C3 dKey pKey true 65 rfl

/-! ## C6: construction depth bound -/

/-- C6: with a structurally valid internal key, Tr::new succeeds on no tree
and on every tree of height at most 128, and fails with the depth-exceeded
error on every tree of height at least 129. -/
theorem claim_C6 {Pk : Type} (checkPk : Pk → Bool) (k : Pk)
    (hk : checkPk k = true) :
    (∀ t : TapTree,
      (t.height ≤ 128 → Tr.new checkPk k (some t) = .ok ⟨k, some t, none⟩)
      ∧ (129 ≤ t.height →
          Tr.new checkPk k (some t) = .error .maxRecursiveDepthExceeded))
    ∧ Tr.new checkPk k none = .ok ⟨k, none, none⟩ := by
  refine ⟨fun t => ⟨fun ht => ?_, fun ht => ?_⟩, ?_⟩
  · simp [Tr.new, hk, ht]
  · have : ¬ t.height ≤ 128 := by omega
    simp [Tr.new, hk, this]
  · simp [Tr.new, hk]

/-- C6 witness: a chain of height exactly 128 constructs, one of height
exactly 129 is rejected with the depth-exceeded error. -/
theorem claim_C6_witness :
    Tr.new ckOk 0 (some (chainT 128)) = .ok ⟨0, some (chainT 128), none⟩
    ∧ Tr.new ckOk 0 (some (chainT 129)) = .error .maxRecursiveDepthExceeded := by
  have h := claim_C6 ckOk 0 rfl
  exact ⟨(h.1 (chainT 128)).1 (by rw [chainT_height]),
    (h.1 (chainT 129)).2 (by rw [chainT_height])⟩

/-! ## C10: equality, ordering and hashing ignore the cache -/

theorem natCmp_self (n : Nat) : natCmp n n = .eq := by
  simp [natCmp]

theorem cmpM_self (ms : Miniscript) : ms.cmpM ms = .eq := by
  simp [Miniscript.cmpM, natCmp_self, Ordering.then]

theorem tapTreeCmp_self (t : TapTree) : t.cmp t = .eq := by
  induction t with
  | tree l r h ihl ihr => simp [TapTree.cmp, ihl, ihr, natCmp_self, Ordering.then]
  | leaf ms => simp [TapTree.cmp, cmpM_self]

/-- C10: two descriptors with equal internal key and equal tree are equal,
compare as Equal, compare identically against any third descriptor, and
hash identically — whatever the contents of their spend-info cache slots. -/
theorem claim_C10 {Pk : Type} [DecidableEq Pk] (cmpPk : Pk → Pk → Ordering)
    (hrefl : ∀ x, cmpPk x x = .eq) (hPk : Pk → List Nat) (a b : Tr Pk)
    (hkey : a.internal_key = b.internal_key) (htree : a.tree = b.tree) :
    Tr.eqb a b = true
    ∧ Tr.cmpT cmpPk a b = .eq
    ∧ (∀ c : Tr Pk, Tr.cmpT cmpPk a c = Tr.cmpT cmpPk b c)
    ∧ Tr.hashT hPk a = Tr.hashT hPk b := by
  refine ⟨?_, ?_, fun c => ?_, ?_⟩
  · simp [Tr.eqb, hkey, htree]
  · rw [Tr.cmpT, hkey, hrefl, htree]
    cases b.tree with
    | none => rfl
    | some t => simp [optCmp, tapTreeCmp_self]
  · simp [Tr.cmpT, hkey, htree]
  · simp [Tr.hashT, hkey, htree]

/-- C10 witness: same key and tree, one cache slot empty and one filled. -/
theorem claim_C10_witness :
    Tr.eqb ⟨0, some tABC, none⟩ ⟨0, some tABC, some 7⟩ = true
    ∧ Tr.cmpT natCmp ⟨0, some tABC, none⟩ ⟨0, some tABC, some 7⟩ = .eq
    ∧ (∀ c : Tr Nat,
        Tr.cmpT natCmp ⟨0, some tABC, none⟩ c = Tr.cmpT natCmp ⟨0, some tABC, some 7⟩ c)
    ∧ Tr.hashT (fun k => [k]) ⟨0, some tABC, none⟩
        = Tr.hashT (fun k => [k]) ⟨0, some tABC, some 7⟩ :=
  claim_C10 natCmp natCmp_self (fun k => [k]) _ _ rfl rfl

/-! ## C2: the builder dispatch is swapped (code bug) -/

/-- C2: evaluation of the planner at a leaf whose non-malleable and
malleable templates differ. The non-malleable entry point (allow_malleable
= false) realizes the MALLEABLE builder's template (item 2, with its
relative timelock and has_sig = false), and the malleable entry point
realizes the NON-malleable builder's template (item 1, has_sig = true) —
the opposite of the claim and of the doc comments on get_satisfaction /
plan_satisfaction. -/
theorem claim_C2_bug_eval :
    pE.buildTemplate msE = ⟨.stack [.item 1], true, none, none⟩
    ∧ pE.buildTemplateMall msE = ⟨.stack [.item 2], false, some 5, none⟩
    ∧ dE.plan_satisfaction pE =
        ⟨.stack [.item 2, .tapScript msE, .tapControlBlock 33], false, some 5, none⟩
    ∧ dE.plan_satisfaction_mall pE =
        ⟨.stack [.item 1, .tapScript msE, .tapControlBlock 33], true, none, none⟩ := by
  refine ⟨rfl, rfl, ?_, ?_⟩ <;>
    · simp only [Tr.plan_satisfaction, Tr.plan_satisfaction_mall, best_tap_spend, dE_iter]
      decide

/-! ## C1 counterexample: equal witness sizes keep the LAST leaf -/

/-- C1 counterexample: a descriptor with two leaves whose realized
witnesses have equal serialized size (73 bytes each) and an oracle without
a key-path signature. The planner returns the plan of the SECOND leaf in
DFS order, not the first, refuting the claimed strictly-smaller
replacement rule / earliest-leaf tie-break. -/
theorem claim_C1_counterexample :
    pTie.tapKeySpendSig dTie.internal_key = none
    ∧ dTie.iter_scripts = [(1, msA), (1, msB)]
    ∧ witness_size [Placeholder.tapScript msA,
        (Placeholder.tapControlBlock (control_block_len 1) : Placeholder Nat)]
      = witness_size [Placeholder.tapScript msB,
        (Placeholder.tapControlBlock (control_block_len 1) : Placeholder Nat)]
    ∧ best_tap_spend dTie pTie false =
        ⟨.stack [.tapScript msB, .tapControlBlock 65], true, none, none⟩
    ∧ (⟨.stack [.tapScript msB, .tapControlBlock 65], true, none, none⟩ : Satisfaction Nat)
      ≠ ⟨.stack [.tapScript msA, .tapControlBlock 65], true, none, none⟩ := by
  refine ⟨rfl, dTie_iter, by decide, ?_, by decide⟩
  simp only [best_tap_spend, dTie_iter]
  decide

/-! ## C4 counterexample: the realized witness can exceed the estimate -/

/-- C4 counterexample: on the tree-less descriptor with a 65-byte key-path
signature, the planner's witness serializes to 67 bytes while
max_weight_to_satisfy returns 66 (it measures the weight delta, excluding
the one-byte empty-witness count), so the claimed inequality fails. -/
theorem claim_C4_counterexample :
    best_tap_spend dKey pKey false =
      ⟨.stack [.schnorrSigPk 0 false 65], true, none, none⟩
    ∧ witness_size [(Placeholder.schnorrSigPk 0 false 65 : Placeholder Nat)] = 67
    ∧ dKey.max_weight_to_satisfy = .ok 66
    ∧ ¬ (67 ≤ 66) := by
  exact ⟨by decide, by decide, rfl, by decide⟩

/-! ## C7: iterator order and depths -/

theorem chainT_trueHeight (n : Nat) : (chainT n).trueHeight = n := by
  induction n with
  | zero => rfl
  | succ n ih =>
      have h : (chainT (n + 1)).trueHeight = 1 + max (chainT n).trueHeight 0 := rfl
      rw [h, ih]
      omega

theorem iterItems_chain_head (n : Nat) :
    ∀ (d : Nat) (rest : List (Nat × TapTree)), d < 256 →
      (iterItems ((d, chainT n) :: rest)).head? = some ((d + n) % 256, msA) := by
  induction n with
  | zero =>
      intro d rest hd
      rw [show chainT 0 = .leaf msA from rfl, iterItems_leaf]
      simp [Nat.mod_eq_of_lt hd]
  | succ n ih =>
      intro d rest hd
      rw [show chainT (n + 1)
          = TapTree.tree (chainT n) (.leaf msB) (1 + max (chainT n).height 0) from rfl]
      rw [iterItems_tree, ih ((d + 1) % 256) _ (Nat.mod_lt _ (by omega))]
      rw [Nat.mod_add_mod]
      have h : d + 1 + n = d + (n + 1) := by omega
      rw [h]

theorem leavesSpec_chain_head (n : Nat) :
    ∀ d : Nat, (leavesSpec (chainT n) d).head? = some (d + n, msA) := by
  induction n with
  | zero => intro d; simp [chainT, leavesSpec]
  | succ n ih =>
      intro d
      rw [show chainT (n + 1)
          = TapTree.tree (chainT n) (.leaf msB) (1 + max (chainT n).height 0) from rfl]
      show ((leavesSpec (chainT n) (d + 1)) ++ leavesSpec (.leaf msB) (d + 1)).head?
        = some (d + (n + 1), msA)
      rw [List.head?_append, ih (d + 1)]
      have h : d + 1 + n = d + (n + 1) := by omega
      rw [h]
      rfl

/-- C7 counterexample: on a chain of 256 branches the iterator's u8 depth
wraps around, so the yielded depth is no longer the number of branch
ancestors — iterate() differs from the specified per-leaf depth listing. -/
theorem claim_C7_counterexample :
    TapTree.iter (chainT 256) ≠ leavesSpec (chainT 256) 0 := by
  intro h
  have h1 : (TapTree.iter (chainT 256)).head? = some ((0 + 256) % 256, msA) :=
    iterItems_chain_head 256 0 [] (by omega)
  have h2 : (leavesSpec (chainT 256) 0).head? = some (0 + 256, msA) :=
    leavesSpec_chain_head 256 0
  rw [h, h2] at h1
  simp at h1

theorem iterItems_spec (t : TapTree) :
    ∀ (d : Nat) (rest : List (Nat × TapTree)), d + t.trueHeight ≤ 255 →
      iterItems ((d, t) :: rest) = leavesSpec t d ++ iterItems rest := by
  induction t with
  | leaf ms =>
      intro d rest _
      rw [iterItems_leaf]
      rfl
  | tree l r hh ihl ihr =>
      intro d rest h
      simp only [TapTree.trueHeight] at h
      have hd : (d + 1) % 256 = d + 1 := Nat.mod_eq_of_lt (by omega)
      rw [iterItems_tree, hd, ihl (d + 1) _ (by omega), ihr (d + 1) rest (by omega)]
      simp [leavesSpec]

/-- C7 (amended): for every tree all of whose leaves have at most 255
branch ancestors (true height at most 255 — in particular every tree a
descriptor can hold), the iterator yields exactly one (depth, leaf) pair
per leaf, in pre-order with the left child's leaves first, the depth being
the number of branch ancestors; and on the example tree {{A,B},C} it
yields [(2,A),(2,B),(1,C)]. For deeper trees the u8 depth wraps (see the
counterexample). -/
theorem claim_C7 :
    (∀ t : TapTree, t.trueHeight ≤ 255 → t.iter = leavesSpec t 0)
    ∧ tABC.iter = [(2, msA), (2, msB), (1, msC)] := by
  refine ⟨fun t h => ?_, tABC_iter⟩
  rw [TapTree.iter, iterItems_spec t 0 [] (by omega), iterItems_nil, List.append_nil]

/-- C7 witness: the amended theorem applied to the example tree. -/
theorem claim_C7_witness :
    tABC.trueHeight ≤ 255 ∧ tABC.iter = leavesSpec tABC 0 :=
  ⟨by decide, claim_C7.1 tABC (by decide)⟩

/-! ## C5: the weight estimator -/

theorem cbl_comm (d : Nat) : 33 + 32 * d = control_block_len d := by
  simp [control_block_len]
  omega

theorem leafEstTerm_eq_spec (d : Nat) (ms : Miniscript) :
    leafEstTerm d ms = specLeafWeight d ms := by
  unfold leafEstTerm specLeafWeight
  cases ms.maxSatElems <;> cases ms.maxSatSize <;> simp [cbl_comm]
  omega

/-- C5: on a descriptor with a script tree, the weight estimator returns
ImpossibleSatisfaction exactly when no DFS leaf yields both max-satisfaction
estimates, and returns W exactly when W is a per-leaf term — the
stack-count varint delta plus the maximum satisfaction bytes plus the
length-prefixed script plus the length-prefixed control block of length
exactly 33 + 32 * depth — attained by some leaf and at least every leaf's
term. -/
theorem claim_C5 {Pk : Type} (d : Tr Pk) (t : TapTree) (htree : d.tree = some t) :
    (d.max_weight_to_satisfy = .error .impossibleSatisfaction ↔
      ∀ x ∈ t.iter, specLeafWeight x.1 x.2 = none)
    ∧ (∀ W, d.max_weight_to_satisfy = .ok W ↔
        ((∃ x, x ∈ t.iter ∧ specLeafWeight x.1 x.2 = some W)
          ∧ ∀ x ∈ t.iter, ∀ w, specLeafWeight x.1 x.2 = some w → w ≤ W)) := by
  have hfg : (fun x : Nat × Miniscript => leafEstTerm x.1 x.2)
      = fun x : Nat × Miniscript => specLeafWeight x.1 x.2 :=
    funext fun x => leafEstTerm_eq_spec x.1 x.2
  simp only [Tr.max_weight_to_satisfy, htree, hfg]
  have hnil : t.iter.filterMap (fun x => specLeafWeight x.1 x.2) = []
      ↔ ∀ x ∈ t.iter, specLeafWeight x.1 x.2 = none := List.filterMap_eq_nil_iff
  have hmem : ∀ w, w ∈ t.iter.filterMap (fun x => specLeafWeight x.1 x.2)
      ↔ ∃ x, x ∈ t.iter ∧ specLeafWeight x.1 x.2 = some w := by
    intro w
    exact List.mem_filterMap
  cases hmax : (t.iter.filterMap (fun x => specLeafWeight x.1 x.2)).max? with
  | none =>
      have hempty := List.max?_eq_none_iff.mp hmax
      refine ⟨⟨fun _ => hnil.mp hempty, fun _ => rfl⟩, fun W => ?_⟩
      simp only [reduceCtorEq, false_iff]
      rintro ⟨⟨x, hx, hsx⟩, -⟩
      have : W ∈ t.iter.filterMap (fun x => specLeafWeight x.1 x.2) :=
        (hmem W).mpr ⟨x, hx, hsx⟩
      rw [hempty] at this
      simp at this
  | some w =>
      obtain ⟨hwmem, hwmax⟩ := List.max?_eq_some_iff'.mp hmax
      obtain ⟨x0, hx0, hsx0⟩ := (hmem w).mp hwmem
      constructor
      · simp only [reduceCtorEq, false_iff]
        intro hall
        rw [hall x0 hx0] at hsx0
        simp at hsx0
      · intro W
        constructor
        · intro hok
          have hWw : w = W := by
            simpa using hok
          subst hWw
          refine ⟨⟨x0, hx0, hsx0⟩, fun x hx w' hsw' => ?_⟩
          exact hwmax w' ((hmem w').mpr ⟨x, hx, hsw'⟩)
        · rintro ⟨⟨x, hx, hsx⟩, hub⟩
          have h1 : W ≤ w := hwmax W ((hmem W).mpr ⟨x, hx, hsx⟩)
          have h2 : w ≤ W := hub x0 hx0 w hsx0
          have : w = W := by omega
          rw [this]

/-- C5 witness: the estimator on the {{A,B},C} descriptor, whose value 114
is attained by the depth-1 leaf C and dominates every leaf's term. -/
theorem claim_C5_witness :
    (dABC.max_weight_to_satisfy = .error .impossibleSatisfaction ↔
      ∀ x ∈ tABC.iter, specLeafWeight x.1 x.2 = none)
    ∧ (∀ W, dABC.max_weight_to_satisfy = .ok W ↔
        ((∃ x, x ∈ tABC.iter ∧ specLeafWeight x.1 x.2 = some W)
          ∧ ∀ x ∈ tABC.iter, ∀ w, specLeafWeight x.1 x.2 = some w → w ≤ W)) :=
  claim_C5 dABC tABC rfl

/-! ## C1: which leaf the script-path search returns -/

theorem tapLoopStep_candOf {Pk : Type} (p : AssetProvider Pk) (mall : Bool)
    (acc : Satisfaction Pk × Option Nat) (x : Nat × Miniscript) :
    tapLoopStep p mall acc x =
      match candOf p mall x with
      | none => acc
      | some c => stepSel acc c := by
  simp only [tapLoopStep, candOf, stepSel]
  cases h : (if mall then p.buildTemplate x.2 else p.buildTemplateMall x.2).stack <;>
    simp [h]

theorem foldl_tapLoopStep {Pk : Type} (p : AssetProvider Pk) (mall : Bool) :
    ∀ (l : List (Nat × Miniscript)) (acc : Satisfaction Pk × Option Nat),
      l.foldl (tapLoopStep p mall) acc
        = (l.filterMap (candOf p mall)).foldl stepSel acc := by
  intro l
  induction l with
  | nil => intro acc; rfl
  | cons x rest ih =>
      intro acc
      rw [List.foldl_cons, ih, tapLoopStep_candOf]
      cases h : candOf p mall x with
      | none => rw [List.filterMap_cons_none h]
      | some c => rw [List.filterMap_cons_some h, List.foldl_cons]

theorem foldl_stepSel_pickMin {Pk : Type} :
    ∀ (cs : List (Satisfaction Pk × Nat)) (c : Satisfaction Pk × Nat),
      cs.foldl stepSel (c.1, some c.2)
        = ((pickMin c cs).1, some (pickMin c cs).2) := by
  intro cs
  induction cs with
  | nil => intro c; rfl
  | cons x rest ih =>
      intro c
      rw [List.foldl_cons]
      have h : stepSel (c.1, some c.2) x
          = ((if c.2 < x.2 then c else x).1, some ((if c.2 < x.2 then c else x).2)) := by
        simp only [stepSel]
        by_cases hc : c.2 < x.2 <;> simp [hc]
      rw [h, ih]
      rfl

theorem pickMin_cons {Pk : Type} :
    ∀ (rest : List (Satisfaction Pk × Nat)) (c x : Satisfaction Pk × Nat),
      pickMin c (x :: rest)
        = if c.2 < (pickMin x rest).2 then c else pickMin x rest := by
  intro rest
  induction rest with
  | nil =>
      intro c x
      simp only [pickMin]
  | cons y rest ih =>
      intro c x
      show pickMin (if c.2 < x.2 then c else x) (y :: rest) = _
      rw [ih (if c.2 < x.2 then c else x) y, ih x y]
      split_ifs <;> first | rfl | omega

theorem lastArgmin_cons_pickMin {Pk : Type} :
    ∀ (cs : List (Satisfaction Pk × Nat)) (c : Satisfaction Pk × Nat),
      lastArgmin (c :: cs) = some (pickMin c cs) := by
  intro cs
  induction cs with
  | nil => intro c; rfl
  | cons x rest ih =>
      intro c
      have hred : lastArgmin (c :: x :: rest)
          = if c.2 < (pickMin x rest).2 then some c else some (pickMin x rest) := by
        show (match lastArgmin (x :: rest) with
          | none => some c
          | some y => if c.2 < y.2 then some c else some y) = _
        rw [ih x]
      rw [hred, pickMin_cons rest c x]
      split_ifs <;> rfl

theorem pickMin_mem {Pk : Type} :
    ∀ (cs : List (Satisfaction Pk × Nat)) (c : Satisfaction Pk × Nat),
      pickMin c cs ∈ c :: cs := by
  intro cs
  induction cs with
  | nil => intro c; exact List.mem_cons_self c []
  | cons x rest ih =>
      intro c
      show pickMin (if c.2 < x.2 then c else x) rest ∈ c :: x :: rest
      have h := ih (if c.2 < x.2 then c else x)
      rcases List.mem_cons.mp h with h1 | h1
      · rw [h1]
        split_ifs <;> simp
      · simp [h1]

theorem pickMin_le {Pk : Type} :
    ∀ (cs : List (Satisfaction Pk × Nat)) (c : Satisfaction Pk × Nat),
      ∀ x ∈ c :: cs, (pickMin c cs).2 ≤ x.2 := by
  intro cs
  induction cs with
  | nil =>
      intro c x hx
      rcases List.mem_cons.mp hx with h | h
      · rw [h]
        exact Nat.le_refl _
      · simp at h
  | cons y rest ih =>
      intro c x hx
      show (pickMin (if c.2 < y.2 then c else y) rest).2 ≤ x.2
      have hcy : (if c.2 < y.2 then c else y).2 ≤ c.2 ∧ (if c.2 < y.2 then c else y).2 ≤ y.2 := by
        split_ifs <;> omega
      have hhead := ih (if c.2 < y.2 then c else y) _
        (List.mem_cons_self (if c.2 < y.2 then c else y) rest)
      rcases List.mem_cons.mp hx with h1 | h1
      · rw [h1]; omega
      · rcases List.mem_cons.mp h1 with h2 | h2
        · rw [h2]; omega
        · exact ih (if c.2 < y.2 then c else y) x (List.mem_cons_of_mem _ h2)

/-- C1 (amended): with no key-path signature available, the script-path
search returns the candidate selected by lastArgmin — the LAST leaf, in
DFS order, whose realized serialized witness size attains the minimum (a
later candidate replaces the current best whenever its size is not
strictly larger) — and that candidate's size is minimal among all
candidates. The original claim's earliest-leaf tie-break is refuted by the
counterexample. -/
theorem claim_C1 {Pk : Type} (d : Tr Pk) (p : AssetProvider Pk) (mall : Bool)
    (c : Satisfaction Pk × Nat)
    (hkey : p.tapKeySpendSig d.internal_key = none)
    (hlast : lastArgmin (d.iter_scripts.filterMap (candOf p mall)) = some c) :
    best_tap_spend d p mall = c.1
    ∧ ∀ y ∈ d.iter_scripts.filterMap (candOf p mall), c.2 ≤ y.2 := by
  cases hcs : d.iter_scripts.filterMap (candOf p mall) with
  | nil =>
      rw [hcs] at hlast
      simp [lastArgmin] at hlast
  | cons c0 rest =>
      rw [hcs, lastArgmin_cons_pickMin] at hlast
      have hc : pickMin c0 rest = c := by
        exact Option.some.inj hlast
      constructor
      · simp only [best_tap_spend, hkey]
        rw [foldl_tapLoopStep, hcs, List.foldl_cons]
        rw [show stepSel (unavailSat Pk, none) c0 = (c0.1, some c0.2) from rfl]
        rw [foldl_stepSel_pickMin, hc]
      · intro y hy
        rw [← hc]
        exact pickMin_le rest c0 y hy

/-- C1 witness: on the two-equal-leaves descriptor the amended theorem
evaluates to the second leaf's plan with the minimal size 73. -/
theorem claim_C1_witness :
    best_tap_spend dTie pTie false
      = (⟨.stack [.tapScript msB, .tapControlBlock 65], true, none, none⟩ : Satisfaction Nat)
    ∧ ∀ y ∈ dTie.iter_scripts.filterMap (candOf pTie false), (73 : Nat) ≤ y.2 :=
  claim_C1 dTie pTie false
    (⟨.stack [.tapScript msB, .tapControlBlock 65], true, none, none⟩, 73)
    rfl (by rw [dTie_iter]; decide)

/-! ## C4: planner cost vs estimator bound -/

theorem witness_size_as_sum {Pk : Type} (w : List (Placeholder Pk)) :
    witness_size w = varint_len w.length + sumWeights w := rfl

theorem sumWeights_append2 {Pk : Type} (w0 : List (Placeholder Pk))
    (a b : Placeholder Pk) :
    sumWeights (w0 ++ [a, b])
      = sumWeights w0
        + ((varint_len a.size + a.size) + (varint_len b.size + b.size)) := by
  simp [sumWeights]

/-- C4 (amended): assume the external component contracts — any key-path
signature size the oracle reports is at most 65 bytes, and every built
template stays within its leaf's declared maxima (its length-prefixed
bytes at most max_sat_size, and its element count plus the script at most
max_sat_elems) — and restrict key-path plans to descriptors without a
script tree (when a tree is present the estimator only bounds script-path
spends). Then every witness-stack plan the planner produces has serialized
witness size at most the estimator's value plus one byte (the one-byte
empty-witness varint that the estimator's weight delta excludes, per the
counterexample). -/
theorem claim_C4 {Pk : Type} (d : Tr Pk) (p : AssetProvider Pk) (mall : Bool)
    (hkey65 : ∀ sz, p.tapKeySpendSig d.internal_key = some sz → sz ≤ 65)
    (hmix : ∀ t, d.tree = some t → p.tapKeySpendSig d.internal_key = none)
    (hcontract : ∀ x ∈ d.iter_scripts, ∀ w0 : List (Placeholder Pk),
      (if mall then p.buildTemplate x.2 else p.buildTemplateMall x.2).stack
          = .stack w0 →
      ∃ m M, x.2.maxSatElems = some m ∧ x.2.maxSatSize = some M
        ∧ sumWeights w0 ≤ M ∧ w0.length + 1 ≤ m) :
    ∀ (w : List (Placeholder Pk)) (W : Nat),
      (best_tap_spend d p mall).stack = .stack w →
      d.max_weight_to_satisfy = .ok W →
      witness_size w ≤ W + 1 := by
  intro w W hw hW
  cases hkey : p.tapKeySpendSig d.internal_key with
  | some sz =>
      cases htree : d.tree with
      | some t =>
          rw [hmix t htree] at hkey
          exact absurd hkey (by simp)
      | none =>
          simp only [best_tap_spend, hkey] at hw
          have hwl : w = [Placeholder.schnorrSigPk d.internal_key d.tree.isSome sz] := by
            injection hw with h
            exact h.symm
          simp only [Tr.max_weight_to_satisfy, htree] at hW
          rw [show varint_len 1 - varint_len 0 + (1 + 65) = 66 from by decide] at hW
          have hW66 : W = 66 := by
            injection hW with h
            exact h.symm
          have hsz := hkey65 sz hkey
          have hv : varint_len sz = 1 := by
            unfold varint_len
            rw [if_pos (by omega)]
          rw [hwl, hW66, witness_size_as_sum]
          simp only [List.length_cons, List.length_nil, sumWeights, List.map_cons,
            List.map_nil, List.sum_cons, List.sum_nil, Placeholder.size]
          rw [hv, show varint_len (0 + 1) = 1 from rfl]
          omega
  | none =>
      simp only [best_tap_spend, hkey] at hw
      cases htree : d.tree with
      | none =>
          have hempty : d.iter_scripts = [] := by simp [Tr.iter_scripts, htree]
          rw [hempty] at hw
          simp [unavailSat] at hw
      | some t =>
          rw [foldl_tapLoopStep] at hw
          cases hcs : d.iter_scripts.filterMap (candOf p mall) with
          | nil =>
              rw [hcs] at hw
              simp [unavailSat] at hw
          | cons c0 rest =>
              rw [hcs, List.foldl_cons,
                show stepSel (unavailSat Pk, none) c0 = (c0.1, some c0.2) from rfl,
                foldl_stepSel_pickMin] at hw
              have hmemL : pickMin c0 rest ∈ d.iter_scripts.filterMap (candOf p mall) := by
                rw [hcs]
                exact pickMin_mem rest c0
              obtain ⟨x, hx, hcand⟩ := List.mem_filterMap.mp hmemL
              cases hst : (if mall then p.buildTemplate x.2 else p.buildTemplateMall x.2).stack with
              | unavailable => simp [candOf, hst] at hcand
              | impossible => simp [candOf, hst] at hcand
              | stack w0 =>
                  simp only [candOf, hst, Option.some.injEq] at hcand
                  have hstack : (pickMin c0 rest).1.stack
                      = Witness.stack (w0 ++ [Placeholder.tapScript x.2,
                          Placeholder.tapControlBlock (control_block_len x.1)]) := by
                    rw [← hcand]
                  rw [hstack] at hw
                  have hweq : w = w0 ++ [Placeholder.tapScript x.2,
                      Placeholder.tapControlBlock (control_block_len x.1)] := by
                    injection hw with h
                    exact h.symm
                  obtain ⟨m, M, hm, hM, hsum, hlen⟩ := hcontract x hx w0 hst
                  have hterm : leafEstTerm x.1 x.2
                      = some ((varint_len (m + 1) - varint_len 0) + M
                        + varint_len x.2.scriptSize + x.2.scriptSize
                        + varint_len (control_block_len x.1) + control_block_len x.1) := by
                    simp [leafEstTerm, hm, hM]
                  have hxiter : x ∈ t.iter := by
                    have hit : d.iter_scripts = t.iter := by simp [Tr.iter_scripts, htree]
                    rw [hit] at hx
                    exact hx
                  simp only [Tr.max_weight_to_satisfy, htree] at hW
                  cases hmax : ((t.iter).filterMap (fun y => leafEstTerm y.1 y.2)).max? with
                  | none =>
                      rw [hmax] at hW
                      exact absurd hW (by simp)
                  | some wm =>
                      rw [hmax] at hW
                      have hwm : wm = W := by
                        injection hW with h
                      have hTmem : (varint_len (m + 1) - varint_len 0) + M
                            + varint_len x.2.scriptSize + x.2.scriptSize
                            + varint_len (control_block_len x.1) + control_block_len x.1
                          ∈ (t.iter).filterMap (fun y => leafEstTerm y.1 y.2) :=
                        List.mem_filterMap.mpr ⟨x, hxiter, hterm⟩
                      have hTle := (List.max?_eq_some_iff'.mp hmax).2 _ hTmem
                      rw [hwm] at hTle
                      rw [varint_len_zero] at hTle
                      have hv1 : varint_len (w0.length + 2) ≤ varint_len (m + 1) :=
                        varint_len_mono (by omega)
                      have hv2 : 1 ≤ varint_len (m + 1) := varint_len_pos _
                      rw [hweq, witness_size_as_sum, sumWeights_append2]
                      simp only [List.length_append, List.length_cons, List.length_nil,
                        Placeholder.size]
                      have hfix : w0.length + (0 + 1 + 1) = w0.length + 2 := by omega
                      rw [hfix]
                      omega

theorem dC4_iter : dC4.iter_scripts = [(0, ms4)] := by
  simp [dC4, Tr.iter_scripts, TapTree.iter, iterItems_leaf, iterItems_nil]

theorem leafMs4_iter : (TapTree.leaf ms4).iter = [(0, ms4)] := by
  simp [TapTree.iter, iterItems_leaf, iterItems_nil]

/-- C4 witness: the amended bound evaluated on the one-leaf descriptor —
the realized 45-byte witness against the estimator value 50. -/
theorem claim_C4_witness :
    witness_size [Placeholder.item 3, Placeholder.tapScript ms4,
        (Placeholder.tapControlBlock 33 : Placeholder Nat)] ≤ 50 + 1 := by
  have hplan : (best_tap_spend dC4 pC4 false).stack
      = .stack [Placeholder.item 3, Placeholder.tapScript ms4,
          Placeholder.tapControlBlock 33] := by
    simp only [best_tap_spend, dC4_iter]
    decide
  have hW : dC4.max_weight_to_satisfy = .ok 50 := by
    simp only [Tr.max_weight_to_satisfy, dC4, leafMs4_iter]
    rfl
  refine claim_C4 dC4 pC4 false ?_ ?_ ?_ _ _ hplan hW
  · intro sz h
    exact absurd h (by simp [pC4])
  · intro t _
    rfl
  · intro x hx w0 hst
    rw [dC4_iter] at hx
    simp only [List.mem_singleton] at hx
    subst hx
    have hw0 : w0 = [Placeholder.item 3] := by
      injection hst with h
      exact h.symm
    refine ⟨2, 10, rfl, rfl, ?_, ?_⟩ <;> rw [hw0] <;> decide

/-! ## C9 counterexample: a constructible descriptor that does not re-parse -/

/-- C9 counterexample: Tr::new accepts a descriptor whose single leaf has
top-level type base other than B (construction never inspects leaf types),
but parsing its canonical rendering fails with the non-top-level error, so
the round trip does not hold for every validly constructed descriptor. -/
theorem claim_C9_counterexample :
    Tr.new ckOk (0 : Nat) (some (.leaf msV)) = .ok dV
    ∧ fromTreeModel ckOk dV.canonExpr = .error .nonTopLevel := by
  exact ⟨rfl, rfl⟩

/-! ## C9: the stack-reduction parser inverts the canonical rendering -/

/-- All script nodes of a tap-tree expression have top-level base B. -/
def TExpr.leavesBE : TExpr → Bool
  | .brace l r => l.leavesBE && r.leavesBE
  | .leafE ms => ms.baseB

theorem leavesBE_canon (t : TapTree) : (canonExprT t).leavesBE = t.leavesB := by
  induction t with
  | tree l r h ihl ihr => simp [canonExprT, TExpr.leavesBE, TapTree.leavesB, ihl, ihr]
  | leaf ms => rfl

theorem treeOf_canon (t : TapTree) (h : t.heightsOkB = true) :
    treeOf (canonExprT t) = t := by
  induction t with
  | leaf ms => rfl
  | tree l r hh ihl ihr =>
      simp only [TapTree.heightsOkB, Bool.and_eq_true, beq_iff_eq] at h
      show TapTree.combine (treeOf (canonExprT l)) (treeOf (canonExprT r))
        = .tree l r hh
      rw [ihl h.1.2, ihr h.2, TapTree.combine, h.1.1]

theorem renderTreeToks_canon {Pk : Type} (t : TapTree) :
    (exprToks (canonExprT t) : List (Tok Pk)) = renderTreeToks t := by
  induction t with
  | tree l r h ihl ihr => simp [canonExprT, exprToks, renderTreeToks, ihl, ihr]
  | leaf ms => rfl

/-- The modelled tokenizer is the inverse of canonical printing: the token
stream of the canonical expression of a descriptor is exactly the token
stream its Display implementation writes. -/
theorem canonExpr_toks {Pk : Type} (d : Tr Pk) :
    (d.canonExpr).toks = d.renderToks := by
  cases htree : d.tree with
  | none => simp [Tr.canonExpr, CExpr.toks, Tr.renderToks, htree]
  | some t => simp [Tr.canonExpr, CExpr.toks, Tr.renderToks, htree, renderTreeToks_canon]

theorem pathParent_concat (p : List Bool) (b : Bool) :
    pathParent (p ++ [b]) = some p := by
  unfold pathParent
  rw [if_neg (by simp), List.dropLast_concat]

/-- p is an initial segment of q. -/
def leads (p q : List Bool) : Prop := q.take p.length = p

theorem leads_self (p : List Bool) : leads p p := by
  simp [leads]

theorem leads_of_concat {p q : List Bool} (b : Bool) (h : leads (p ++ [b]) q) :
    leads p q := by
  unfold leads at *
  have h1 : q.take p.length = (q.take (p ++ [b]).length).take p.length := by
    rw [List.take_take]
    congr 1
    simp
  rw [h1, h]
  exact List.take_left' rfl

/-- No tag on the reduction stack denotes a node at or below path p. -/
def freeOf (p : List Bool) (s : List (Option (List Bool) × TapTree)) : Prop :=
  ∀ e ∈ s, ∀ q : List Bool, e.1 = some q → ¬ leads p q

theorem walk_spec : ∀ (te : TExpr) (p : List Bool)
    (s : List (Option (List Bool) × TapTree)),
    te.leavesBE = true → freeOf p s →
    walk te p s = .ok (pushS (pathParent p) (treeOf te) s) := by
  intro te
  induction te with
  | leafE ms =>
      intro p s hB _
      simp only [TExpr.leavesBE] at hB
      simp [walk, hB, treeOf]
  | brace l r ihl ihr =>
      intro p s hB hfree
      simp only [TExpr.leavesBE, Bool.and_eq_true] at hB
      have hfreeL : freeOf (p ++ [false]) s := fun e he q hq hlq =>
        hfree e he q hq (leads_of_concat false hlq)
      show (match walk l (p ++ [false]) s with
        | .ok s1 => walk r (p ++ [true]) s1
        | .error e => .error e) = _
      rw [ihl (p ++ [false]) s hB.1 hfreeL, pathParent_concat]
      have hnm : pushS (some p) (treeOf l) s = (some p, treeOf l) :: s := by
        cases s with
        | nil => rfl
        | cons e rest =>
            obtain ⟨q0, t0⟩ := e
            show (if q0 = some p then _ else _) = _
            rw [if_neg ?hq]
            case hq =>
              intro hq0
              exact hfree (q0, t0) (List.mem_cons_self _ _) p hq0 (leads_self p)
      rw [hnm]
      show walk r (p ++ [true]) ((some p, treeOf l) :: s) = _
      have hfreeR : freeOf (p ++ [true]) ((some p, treeOf l) :: s) := by
        intro e he q hq hlq
        rcases List.mem_cons.mp he with h | h
        · rw [h] at hq
          have hq2 : p = q := Option.some.inj hq
          rw [← hq2] at hlq
          unfold leads at hlq
          rw [List.take_of_length_le (by simp)] at hlq
          have := congrArg List.length hlq
          simp at this
        · exact hfree e h q hq (leads_of_concat true hlq)
      rw [ihr (p ++ [true]) _ hB.2 hfreeR, pathParent_concat]
      have hmerge : pushS (some p) (treeOf r) ((some p, treeOf l) :: s)
          = pushS (tagParent (some p)) (TapTree.combine (treeOf l) (treeOf r)) s := by
        show (if some p = some p then _ else _) = _
        rw [if_pos rfl]
      rw [hmerge]
      rfl

/-- C9 (amended): every validly constructed descriptor whose cached tree
heights are consistent and ALL of whose leaves have top-level type base B
(the restriction the counterexample forces) parses back, from the
canonical expression of its Display rendering, to a structurally identical
descriptor: same internal key, same tree nesting, same leaves in the same
order (with a fresh, empty spend-info cache). -/
theorem claim_C9 {Pk : Type} (checkPk : Pk → Bool) (d : Tr Pk)
    (hck : checkPk d.internal_key = true)
    (hh : ∀ t, d.tree = some t →
      t.heightsOkB = true ∧ t.leavesB = true ∧ t.height ≤ 128) :
    fromTreeModel checkPk d.canonExpr = .ok ⟨d.internal_key, d.tree, none⟩ := by
  cases htree : d.tree with
  | none =>
      simp only [Tr.canonExpr, htree]
      show Tr.new checkPk d.internal_key none = _
      simp [Tr.new, hck]
  | some t =>
      obtain ⟨h1, h2, h3⟩ := hh t htree
      simp only [Tr.canonExpr, htree]
      show (match walk (canonExprT t) [] [] with
        | .ok [(_, t)] => Tr.new checkPk d.internal_key (some t)
        | .ok _ => .error .assertFailed
        | .error e => .error e) = _
      rw [walk_spec (canonExprT t) [] []
        (by rw [leavesBE_canon]; exact h2)
        (by intro e he; exact absurd he (List.not_mem_nil e))]
      rw [treeOf_canon t h1]
      show Tr.new checkPk d.internal_key (some t) = _
      simp [Tr.new, hck, h3]

/-- C9 witness: the {{A,B},C} descriptor round-trips through the modelled
parser. -/
theorem claim_C9_witness :
    fromTreeModel ckOk dABC.canonExpr = .ok ⟨0, some tABC, none⟩ :=
  claim_C9 ckOk dABC rfl (fun t ht => by
    have h : tABC = t := Option.some.inj ht
    rw [← h]
    exact ⟨by decide, by decide, by decide⟩)

end MiniTr
